import Mathlib

/-!
Shallow embedding of the retention decision engine of the
`delete-workflow-runs` GitHub Action (`src/index.js`, current version),
together with proofs of the specified properties.

Timestamps are modelled as integer milliseconds since the Unix epoch
(`Int`); a missing or unparsable `created_at` is `none`.  The JavaScript
float comparison `(now - t) / 86400000 < retainDays` is rendered in exact
integer arithmetic as `now - t < retainDays * 86400000`, which agrees with
it on integer inputs (the division by the positive constant is monotone
and the boundary value is exactly representable).
-/

/-- A workflow run record, the fields read by the engine
(`src/index.js`: `shouldDeleteRun`, `filterRunsByDailyRetention`, `run`). -/
structure RunRecord where
  id : Nat
  workflow_id : Nat
  status : String
  conclusion : Option String
  created_at : Option Int
  head_branch : Option String
  pull_requests : List Nat
deriving DecidableEq, Repr

/-- A workflow descriptor, the fields read by the workflow filter. -/
structure Workflow where
  id : Nat
  name : String
  path : String
  state : String
deriving DecidableEq, Repr

/-- Milliseconds per day (the `86400000` constant of the source). -/
def msPerDay : Int := 86400000

/-- JavaScript `String.prototype.split` on a character class: cut the
character list at every separator, keeping empty segments. -/
def splitChars (p : Char → Bool) : List Char → List (List Char)
  | [] => [[]]
  | c :: cs =>
    let rest := splitChars p cs
    if p c then [] :: rest
    else
      match rest with
      | [] => [[c]]
      | hd :: tl => (c :: hd) :: tl

/-- JavaScript `String.prototype.trim`: strip leading and trailing
whitespace. -/
def jsTrim (s : String) : String :=
  String.mk (((s.data.dropWhile Char.isWhitespace).reverse.dropWhile
    Char.isWhitespace).reverse)

/-- JavaScript `String.prototype.toLowerCase` (ASCII range). -/
def jsToLower (s : String) : String := String.mk (s.data.map Char.toLower)

/-- JavaScript `String.prototype.toUpperCase` (ASCII range). -/
def jsToUpper (s : String) : String := String.mk (s.data.map Char.toUpper)

/-- `splitPattern` (src/index.js:25): split on comma or pipe, trim each
item, drop empty items. -/
def splitPattern (pattern : String) : List String :=
  ((splitChars (fun c => c = ',' || c = '|') pattern.data).map
    (fun l => jsTrim (String.mk l))).filter (fun s => s ≠ "")

/-- The conclusion filter set construction (src/index.js:181,253):
`core.getInput(...) || "ALL"` followed by
`p.toUpperCase() === "ALL" ? [] : splitPattern(p).map(c => c.toLowerCase())`. -/
def conclusionFilter (input : String) : List String :=
  let p := if input = "" then "ALL" else input
  if jsToUpper p = "ALL" then []
  else (splitPattern p).map (fun c => jsToLower c)

/-- JavaScript `String.prototype.includes` over character lists: `sub`
occurs as a contiguous sublist of `hay`. -/
def listIncludes (hay sub : List Char) : Bool :=
  (List.range (hay.length + 1)).any (fun i => sub.isPrefixOf (hay.drop i))

/-- JavaScript `String.prototype.includes`. -/
def jsIncludes (hay sub : String) : Bool := listIncludes hay.data sub.data

/-- `path.replace(/^\.github\/workflows\//, "")` (src/index.js:237). -/
def stripWorkflowDir (path : String) : String :=
  if (".github/workflows/").data.isPrefixOf path.data then
    String.mk (path.data.drop (".github/workflows/").data.length)
  else path

/-- The workflow-name filter (src/index.js:228-243): when the raw pattern
string is non-empty and splits to a non-empty pattern list, keep a
workflow iff its lowercased name or lowercased stripped filename contains
some lowercased pattern as a substring. -/
def filterWorkflowsByName (workflows : List Workflow) (rawPattern : String) :
    List Workflow :=
  if rawPattern = "" then workflows
  else
    let patterns := (splitPattern rawPattern).map (fun p => jsToLower p)
    if patterns.length = 0 then workflows
    else
      workflows.filter (fun w =>
        let filename := stripWorkflowDir w.path
        let nameLower := jsToLower w.name
        let filenameLower := jsToLower filename
        patterns.any (fun p =>
          jsIncludes nameLower p || jsIncludes filenameLower p))

/-- The case-sensitive name filter that §4.5 of the spec describes, for
comparison with the implemented `filterWorkflowsByName`. -/
def filterWorkflowsByNameCS (workflows : List Workflow) (rawPattern : String) :
    List Workflow :=
  if rawPattern = "" then workflows
  else
    let patterns := splitPattern rawPattern
    if patterns.length = 0 then workflows
    else
      workflows.filter (fun w =>
        let filename := stripWorkflowDir w.path
        patterns.any (fun p =>
          jsIncludes w.name p || jsIncludes filename p))

/-- The options record passed to `shouldDeleteRun` (src/index.js:78). -/
structure DeleteOptions where
  checkPullRequestExist : Bool
  checkBranchExistence : Bool
  branchNames : List String
  allowedConclusions : List String
  retainDays : Int
  skipAgeCheck : Bool
deriving Repr

/-- The first four (non-age) checks of `shouldDeleteRun`
(src/index.js:79-101): status must be "completed"; optionally skip runs
with linked pull requests; optionally skip runs whose head branch still
exists; optionally restrict to allowed conclusions. -/
def passesNonAgeChecks (run : RunRecord) (o : DeleteOptions) : Bool :=
  if run.status ≠ "completed" then false
  else if o.checkPullRequestExist && decide (0 < run.pull_requests.length) then
    false
  else if o.checkBranchExistence && (run.head_branch.getD "") ≠ "" &&
      o.branchNames.contains (run.head_branch.getD "") then false
  else if decide (0 < o.allowedConclusions.length) &&
      !(o.allowedConclusions.contains (jsToLower (run.conclusion.getD ""))) then
    false
  else true

/-- `shouldDeleteRun` (src/index.js:77-115).  `now` is the ambient
`Date.now()` value. -/
def shouldDeleteRun (run : RunRecord) (o : DeleteOptions) (now : Int) : Bool :=
  if run.status ≠ "completed" then false
  else if o.checkPullRequestExist && decide (0 < run.pull_requests.length) then
    false
  else if o.checkBranchExistence && (run.head_branch.getD "") ≠ "" &&
      o.branchNames.contains (run.head_branch.getD "") then false
  else if decide (0 < o.allowedConclusions.length) &&
      !(o.allowedConclusions.contains (jsToLower (run.conclusion.getD ""))) then
    false
  else if !o.skipAgeCheck && decide (0 < o.retainDays) then
    match run.created_at with
    | none => false
    | some t => if now - t < o.retainDays * msPerDay then false else true
  else true

/-- The sort key `new Date(run.created_at).getTime()` used by the
selector's comparators. -/
def createdTime (r : RunRecord) : Int := r.created_at.getD 0

/-- Ascending comparator order on runs, by creation time. -/
def leCreated (a b : RunRecord) : Prop := createdTime a ≤ createdTime b

instance : DecidableRel leCreated := fun a b =>
  inferInstanceAs (Decidable (createdTime a ≤ createdTime b))

instance : IsTotal RunRecord leCreated :=
  ⟨fun a b => Int.le_total (createdTime a) (createdTime b)⟩

instance : IsTrans RunRecord leCreated :=
  ⟨fun _ _ _ h h' => Int.le_trans h h'⟩

/-- Descending comparator order on runs, by creation time. -/
def geCreated (a b : RunRecord) : Prop := createdTime b ≤ createdTime a

instance : DecidableRel geCreated := fun a b =>
  inferInstanceAs (Decidable (createdTime b ≤ createdTime a))

instance : IsTotal RunRecord geCreated :=
  ⟨fun a b => Int.le_total (createdTime b) (createdTime a)⟩

instance : IsTrans RunRecord geCreated :=
  ⟨fun _ _ _ h h' => Int.le_trans h' h⟩

/-- `candidates.sort((a, b) => new Date(a.created_at) - new Date(b.created_at))`
(src/index.js:280): stable ascending sort by creation time. -/
def sortByCreatedAsc (runs : List RunRecord) : List RunRecord :=
  List.insertionSort leCreated runs

/-- `dateRuns.sort((a, b) => new Date(b.created_at) - new Date(a.created_at))`
(src/index.js:155): stable descending sort by creation time. -/
def sortByCreatedDesc (runs : List RunRecord) : List RunRecord :=
  List.insertionSort geCreated runs

/-- The global retention selector (src/index.js:280-282).  Returns
`(runsToDelete, runsToRetain)`.  `slice(-k)` is `drop (length - k)` and
`slice(0, length - retain.length)` is `take (length - retain.length)`. -/
def globalRetention (candidates : List RunRecord) (k : Nat) :
    List RunRecord × List RunRecord :=
  let sorted := sortByCreatedAsc candidates
  if 0 < k then
    let retain := sorted.drop (sorted.length - k)
    (sorted.take (sorted.length - retain.length), retain)
  else (sorted, [])

/-- The UTC calendar-day key: `new Date(t).toISOString().split("T")[0]`
identifies the UTC day, i.e. the floor of `t / 86400000`. -/
def dateKey (t : Int) : Int := Int.fdiv t msPerDay

/-- Append a run to its date bucket, keeping first-insertion bucket order
(JavaScript object keys `YYYY-MM-DD` preserve insertion order). -/
def groupInsert (groups : List (Int × List RunRecord)) (k : Int)
    (r : RunRecord) : List (Int × List RunRecord) :=
  match groups with
  | [] => [(k, [r])]
  | (k', rs) :: rest =>
    if k' = k then (k', rs ++ [r]) :: rest
    else (k', rs) :: groupInsert rest k r

/-- The runs pushed to `expiredRuns` by the `runs.forEach` loop of
`filterRunsByDailyRetention` (src/index.js:135-151): missing/unparsable
`created_at`, or creation time before the cutoff. -/
def dailyExpired (cutoff : Int) : List RunRecord → List RunRecord
  | [] => []
  | r :: rs =>
    match r.created_at with
    | none => r :: dailyExpired cutoff rs
    | some t =>
      if t < cutoff then r :: dailyExpired cutoff rs
      else dailyExpired cutoff rs

/-- One step of the bucket-building loop: a run with a parsable creation
time at or after the cutoff is appended to its date bucket, everything
else is left to `dailyExpired`. -/
def dailyStep (cutoff : Int) (gs : List (Int × List RunRecord))
    (r : RunRecord) : List (Int × List RunRecord) :=
  match r.created_at with
  | none => gs
  | some t => if t < cutoff then gs else groupInsert gs (dateKey t) r

/-- The `runsByDate` buckets built by the same loop, in first-insertion
order. -/
def dailyGroups (cutoff : Int) (runs : List RunRecord) :
    List (Int × List RunRecord) :=
  runs.foldl (dailyStep cutoff) []

/-- `filterRunsByDailyRetention` (src/index.js:123-162).  Returns
`(runsToDelete, runsToRetain)`.  The cutoff
`new Date(); cutoffDate.setDate(getDate() - retainDays)` is rendered as
`now - retainDays * msPerDay`. -/
def filterRunsByDailyRetention (runs : List RunRecord) (keepMinimumRuns : Nat)
    (retainDays : Nat) (now : Int) : List RunRecord × List RunRecord :=
  if keepMinimumRuns = 0 ∨ retainDays = 0 then (runs, [])
  else
    let cutoff := now - (retainDays : Int) * msPerDay
    let sortedBuckets :=
      (dailyGroups cutoff runs).map (fun g => sortByCreatedDesc g.2)
    let runsToRetain :=
      (sortedBuckets.map (fun b => b.take keepMinimumRuns)).flatten
    let runsToDelete :=
      dailyExpired cutoff runs ++
        (sortedBuckets.map (fun b => b.drop keepMinimumRuns)).flatten
    (runsToDelete, runsToRetain)

/-- Orphan detection (src/index.js:222): runs whose `workflow_id` is not
in the fetched workflow id list. -/
def orphanRuns (allRuns : List RunRecord) (workflowIds : List Nat) :
    List RunRecord :=
  allRuns.filter (fun r => !(workflowIds.contains r.workflow_id))

/-- The per-batch summary of `deleteRuns` (src/index.js:55-67). -/
structure DeleteSummary where
  deleted : Nat
  skipped : Nat
  failed : Nat
deriving DecidableEq, Repr

/-- One task of `deleteRuns` (src/index.js:40-53): returns the outcome
status and the backend delete calls it issued.  `backend r = true` models
a successful `deleteWorkflowRun` call, `false` a thrown error (caught and
turned into a "failed" outcome). -/
def taskOutcome (dryRun : Bool) (backend : Nat → Bool) (r : RunRecord) :
    String × List Nat :=
  if dryRun then ("skipped", [])
  else if backend r.id then ("deleted", [r.id])
  else ("failed", [r.id])

/-- The reducer of the deletion summary (src/index.js:55-67); the
`default` branch (a rejected task) also counts as failed, but tasks in
this model always fulfil, as in the source where every error is caught. -/
def summaryStep (acc : DeleteSummary) (o : String × List Nat) :
    DeleteSummary :=
  if o.1 = "deleted" then { acc with deleted := acc.deleted + 1 }
  else if o.1 = "skipped" then { acc with skipped := acc.skipped + 1 }
  else { acc with failed := acc.failed + 1 }

/-- `deleteRuns` (src/index.js:35-69): on an empty batch, return without a
summary; otherwise run every task (Promise.allSettled: all are attempted)
and fold the outcome statuses into the summary.  Returns the summary and
the list of backend delete calls issued. -/
def deleteRuns (runs : List RunRecord) (dryRun : Bool)
    (backend : Nat → Bool) : Option DeleteSummary × List Nat :=
  if runs.length = 0 then (none, [])
  else
    let outcomes := runs.map (taskOutcome dryRun backend)
    (some (outcomes.foldl summaryStep ⟨0, 0, 0⟩),
     (outcomes.map (fun o => o.2)).flatten)

/-- A completed, successful run on `main`, used as a concrete test input. -/
def mkRun (i : Nat) (t : Int) : RunRecord :=
  ⟨i, 1, "completed", some "success", some t, some "main", []⟩

/-- A run that is still in progress, used as a concrete test input. -/
def pendingRun : RunRecord :=
  ⟨9, 1, "in_progress", none, some 0, some "main", []⟩

/-- A default configuration with all optional checks off and
`retain_days = 30`, used as a concrete test input. -/
def sampleOpts : DeleteOptions := ⟨false, false, [], [], 30, false⟩

/-- A workflow with a capitalised display name, used as a concrete test
input. -/
def wfBuild : Workflow := ⟨1, "Build", ".github/workflows/ci.yml", "active"⟩

/-! ## Helper lemmas -/

lemma globalRetention_pos (C : List RunRecord) (k : Nat) (hk : 0 < k) :
    globalRetention C k =
      ((sortByCreatedAsc C).take ((sortByCreatedAsc C).length - k),
       (sortByCreatedAsc C).drop ((sortByCreatedAsc C).length - k)) := by
  unfold globalRetention
  simp only [if_pos hk, List.length_drop]
  congr 2
  omega

lemma mem_dailyExpired (cutoff : Int) (runs : List RunRecord)
    (r : RunRecord) (hr : r ∈ runs)
    (h : r.created_at = none ∨ ∃ t, r.created_at = some t ∧ t < cutoff) :
    r ∈ dailyExpired cutoff runs := by
  induction runs with
  | nil => cases hr
  | cons a rs ih =>
    rcases List.mem_cons.mp hr with rfl | hmem
    · rcases h with hnone | ⟨t, hsome, hlt⟩
      · simp [dailyExpired, hnone]
      · simp [dailyExpired, hsome, hlt]
    · have hrec := ih hmem
      unfold dailyExpired
      rcases hca : a.created_at with _ | t
      · exact List.mem_cons_of_mem a hrec
      · by_cases hlt : t < cutoff
        · simp only [if_pos hlt]
          exact List.mem_cons_of_mem a hrec
        · simpa [if_neg hlt] using hrec

/-- The content invariant of a date bucket: every member has a parsable
creation time at or after the cutoff whose calendar day is the bucket
key. -/
def BucketInv (cutoff : Int) (g : Int × List RunRecord) : Prop :=
  ∀ r ∈ g.2, ∃ t, r.created_at = some t ∧ ¬ t < cutoff ∧ dateKey t = g.1

lemma groupInsert_inv {cutoff : Int} {gs : List (Int × List RunRecord)}
    {k : Int} {r : RunRecord}
    (hgs : ∀ g ∈ gs, BucketInv cutoff g)
    (hr : ∃ t, r.created_at = some t ∧ ¬ t < cutoff ∧ dateKey t = k) :
    ∀ g ∈ groupInsert gs k r, BucketInv cutoff g := by
  induction gs with
  | nil =>
    intro g hg
    simp only [groupInsert, List.mem_singleton] at hg
    subst hg
    intro x hx
    simp only [List.mem_singleton] at hx
    subst hx
    exact hr
  | cons hd tl ih =>
    obtain ⟨k', rs⟩ := hd
    intro g hg
    unfold groupInsert at hg
    by_cases hk : k' = k
    · simp only [if_pos hk] at hg
      rcases List.mem_cons.mp hg with rfl | hmem
      · intro x hx
        rcases List.mem_append.mp hx with hx | hx
        · exact hgs (k', rs) (List.mem_cons_self _ _) x hx
        · simp only [List.mem_singleton] at hx
          subst hx
          obtain ⟨t, h1, h2, h3⟩ := hr
          exact ⟨t, h1, h2, by rw [h3, hk]⟩
      · exact hgs g (List.mem_cons_of_mem _ hmem)
    · simp only [if_neg hk] at hg
      rcases List.mem_cons.mp hg with rfl | hmem
      · exact hgs (k', rs) (List.mem_cons_self _ _)
      · exact ih (fun g' hg' => hgs g' (List.mem_cons_of_mem _ hg')) g hmem

lemma dailyGroups_foldl_inv (cutoff : Int) (runs : List RunRecord) :
    ∀ gs, (∀ g ∈ gs, BucketInv cutoff g) →
      ∀ g ∈ runs.foldl (dailyStep cutoff) gs, BucketInv cutoff g := by
  induction runs with
  | nil => intro gs hgs; simpa using hgs
  | cons a rs ih =>
    intro gs hgs
    simp only [List.foldl_cons]
    apply ih
    unfold dailyStep
    rcases hca : a.created_at with _ | t
    · exact hgs
    · by_cases hlt : t < cutoff
      · simpa [if_pos hlt] using hgs
      · simp only [if_neg hlt]
        exact groupInsert_inv hgs ⟨t, hca, hlt, rfl⟩

lemma dailyGroups_inv (cutoff : Int) (runs : List RunRecord) :
    ∀ g ∈ dailyGroups cutoff runs, BucketInv cutoff g :=
  dailyGroups_foldl_inv cutoff runs [] (by intro g hg; cases hg)

lemma foldl_summaryStep (outs : List (String × List Nat))
    (acc : DeleteSummary) :
    outs.foldl summaryStep acc =
      ⟨acc.deleted + outs.countP (fun o => o.1 == "deleted"),
       acc.skipped + outs.countP (fun o => o.1 == "skipped"),
       acc.failed +
         outs.countP (fun o => o.1 != "deleted" && o.1 != "skipped")⟩ := by
  induction outs generalizing acc with
  | nil => simp
  | cons o outs ih =>
    simp only [List.foldl_cons, List.countP_cons, ih]
    unfold summaryStep
    by_cases h1 : o.1 = "deleted"
    · simp [h1]; omega
    · by_cases h2 : o.1 = "skipped"
      · simp [h1, h2]; omega
      · simp only [if_neg h1, if_neg h2]
        simp [h1, h2]
        omega

lemma taskOutcome_dry (backend : Nat → Bool) (r : RunRecord) :
    taskOutcome true backend r = ("skipped", []) := rfl

lemma taskOutcome_live (backend : Nat → Bool) (r : RunRecord) :
    taskOutcome false backend r =
      (if backend r.id then "deleted" else "failed", [r.id]) := by
  unfold taskOutcome
  by_cases h : backend r.id <;> simp [h]

/-! ## Claim theorems -/

/-- C2: a run whose status is not "completed" is never marked deletable by
`shouldDeleteRun`, for every configuration and every current time. -/
theorem c2_incomplete_never_deletable (run : RunRecord) (o : DeleteOptions)
    (now : Int) (h : run.status ≠ "completed") :
    shouldDeleteRun run o now = false := by
  simp [shouldDeleteRun, h]

/-- Witness for C2 at a concrete in-progress run. -/
theorem c2_witness :
    shouldDeleteRun pendingRun sampleOpts 0 = false :=
  c2_incomplete_never_deletable pendingRun sampleOpts 0 (by decide)

/-- C7: the "ALL" sentinel (any letter case) and the empty/absent pattern
both resolve to the unrestricted (empty) conclusion filter set, and
`splitPattern` splits on comma and pipe, trims whitespace and drops empty
tokens. -/
theorem c7_pattern_matcher :
    conclusionFilter "ALL" = [] ∧ conclusionFilter "all" = [] ∧
    conclusionFilter "AlL" = [] ∧ conclusionFilter "" = [] ∧
    splitPattern "" = [] ∧ splitPattern "a, b|c" = ["a", "b", "c"] ∧
    conclusionFilter "a, b|c" = ["a", "b", "c"] := by decide

/-- C5: a run is in the orphan delete set iff its workflow id is not in
the fetched workflow id list; the detector takes no retention or
predicate configuration at all. -/
theorem c5_orphan_detection (allRuns : List RunRecord)
    (workflowIds : List Nat) (r : RunRecord) :
    r ∈ orphanRuns allRuns workflowIds ↔
      r ∈ allRuns ∧ workflowIds.contains r.workflow_id = false := by
  simp [orphanRuns, List.mem_filter]

/-- Concatenating the singleton call lists of a batch yields one call per
run, in order. -/
lemma flatten_map_singleton (runs : List RunRecord) :
    (runs.map (fun r => [r.id])).flatten = runs.map (fun r => r.id) := by
  induction runs with
  | nil => rfl
  | cons a rs ih => simp [ih]

/-- Counting over a constant-valued map: all or nothing. -/
lemma countP_replicate {a : Type} (n : Nat) (x : a) (p : a -> Bool) :
    (List.replicate n x).countP p = if p x then n else 0 := by
  induction n with
  | zero => simp
  | succ n ih =>
    rw [List.replicate_succ, List.countP_cons, ih]
    by_cases h : p x <;> simp [h]

/-- C6: in dry-run mode, a non-empty batch issues zero backend delete
calls and the summary reports deleted = 0, failed = 0, and skipped equal
to the batch size. -/
theorem c6_dry_run (runs : List RunRecord) (backend : Nat → Bool)
    (h : runs ≠ []) :
    deleteRuns runs true backend = (some ⟨0, runs.length, 0⟩, []) := by
  unfold deleteRuns
  rw [if_neg (by simpa using h)]
  dsimp only
  have hfun : taskOutcome true backend =
      fun (_ : RunRecord) => (("skipped" : String), ([] : List Nat)) :=
    funext fun r => rfl
  rw [hfun, foldl_summaryStep]
  simp [List.countP_map, Function.comp_def, List.flatten_eq_nil_iff,
    countP_replicate]

/-- Witness for C6 at a concrete two-run batch. -/
theorem c6_witness :
    deleteRuns [mkRun 1 0, mkRun 2 0] true (fun _ => true) =
      (some ⟨0, 2, 0⟩, []) :=
  c6_dry_run [mkRun 1 0, mkRun 2 0] (fun _ => true) (by decide)

/-- C9: with dry-run off, every run of the batch gets its own backend
delete call regardless of how the other calls fare, the failing runs are
exactly the failed tally, and the executor always returns (errors are
absorbed into per-run outcomes). -/
theorem c9_failure_isolation (runs : List RunRecord) (backend : Nat → Bool) :
    (deleteRuns runs false backend).2 = runs.map (fun r => r.id) ∧
    (runs ≠ [] → (deleteRuns runs false backend).1 =
      some ⟨runs.countP (fun r => backend r.id), 0,
            runs.countP (fun r => !backend r.id)⟩) := by
  constructor
  · unfold deleteRuns
    by_cases h : runs.length = 0
    · rw [if_pos h]
      simp [List.eq_nil_of_length_eq_zero h]
    · rw [if_neg h]
      dsimp only
      simp only [List.map_map]
      have hfun : (fun o => o.2) ∘ taskOutcome false backend =
          fun (r : RunRecord) => [r.id] := by
        funext r
        rw [Function.comp_apply, taskOutcome_live]
      rw [hfun, flatten_map_singleton]
  · intro h
    unfold deleteRuns
    rw [if_neg (by simpa using h)]
    dsimp only
    rw [foldl_summaryStep]
    have h1 : (runs.map (taskOutcome false backend)).countP
        (fun o => o.1 == "deleted") = runs.countP (fun r => backend r.id) := by
      rw [List.countP_map]
      apply List.countP_congr
      intro r _
      rw [Function.comp_apply, taskOutcome_live]
      by_cases hb : backend r.id <;> simp [hb]
    have h2 : (runs.map (taskOutcome false backend)).countP
        (fun o => o.1 == "skipped") = 0 := by
      rw [List.countP_map, List.countP_eq_zero]
      intro r _
      rw [Function.comp_apply, taskOutcome_live]
      by_cases hb : backend r.id <;> simp [hb]
    have h3 : (runs.map (taskOutcome false backend)).countP
        (fun o => o.1 != "deleted" && o.1 != "skipped") =
        runs.countP (fun r => !backend r.id) := by
      rw [List.countP_map]
      apply List.countP_congr
      intro r _
      rw [Function.comp_apply, taskOutcome_live]
      by_cases hb : backend r.id <;> simp [hb]
    rw [h1, h2, h3]
    simp

/-- Witness for C9: a batch of two runs where the backend fails on the
second; both are attempted, the failure is tallied. -/
theorem c9_witness :
    (deleteRuns [mkRun 1 0, mkRun 2 0] false (fun i => decide (i = 1))).2 =
      [1, 2] ∧
    (deleteRuns [mkRun 1 0, mkRun 2 0] false (fun i => decide (i = 1))).1 =
      some ⟨1, 0, 1⟩ := by
  have h := c9_failure_isolation [mkRun 1 0, mkRun 2 0]
    (fun i => decide (i = 1))
  refine ⟨?_, ?_⟩
  · rw [h.1]; decide
  · rw [h.2 (by decide)]; decide

/-- C1: under the global strategy the candidates are sorted ascending by
creation time; with k = 0 everything is deleted and nothing retained;
with k > 0 the retain set is the suffix of the last min(k, |C|) (most
recent) entries and the delete set the preceding prefix, they partition
the candidates, for k ≤ |C| the retain set has size exactly k, every
retained run is at least as recent as every deleted run, and on
duplicate-free input the two sets are disjoint. -/
theorem c1_global_strategy (C : List RunRecord) (k : Nat) :
    (sortByCreatedAsc C).Perm C ∧
    List.Sorted leCreated (sortByCreatedAsc C) ∧
    (k = 0 → globalRetention C k = (sortByCreatedAsc C, [])) ∧
    (0 < k →
      (globalRetention C k).2 =
        (sortByCreatedAsc C).drop ((sortByCreatedAsc C).length - k) ∧
      (globalRetention C k).1 =
        (sortByCreatedAsc C).take ((sortByCreatedAsc C).length - k) ∧
      (globalRetention C k).2.length = min k C.length ∧
      (globalRetention C k).1 ++ (globalRetention C k).2 =
        sortByCreatedAsc C ∧
      ((globalRetention C k).1 ++ (globalRetention C k).2).Perm C ∧
      (k ≤ C.length → (globalRetention C k).2.length = k) ∧
      (∀ a ∈ (globalRetention C k).1, ∀ b ∈ (globalRetention C k).2,
        createdTime a ≤ createdTime b) ∧
      (C.Nodup →
        (globalRetention C k).1.Disjoint (globalRetention C k).2)) := by
  have hperm : (sortByCreatedAsc C).Perm C :=
    List.perm_insertionSort leCreated C
  have hsorted : List.Sorted leCreated (sortByCreatedAsc C) :=
    List.sorted_insertionSort leCreated C
  have hlen : (sortByCreatedAsc C).length = C.length := hperm.length_eq
  refine ⟨hperm, hsorted, ?_, ?_⟩
  · intro hk
    subst hk
    unfold globalRetention
    simp
  · intro hk
    rw [globalRetention_pos C k hk]
    dsimp only
    refine ⟨rfl, rfl, ?_, List.take_append_drop _ _, ?_, ?_, ?_, ?_⟩
    · rw [List.length_drop, hlen]
      omega
    · rw [List.take_append_drop]
      exact hperm
    · intro hle
      rw [List.length_drop, hlen]
      omega
    · intro a ha b hb
      exact hsorted.rel_of_mem_take_of_mem_drop ha hb
    · intro hnodup
      have hs : (sortByCreatedAsc C).Nodup := hperm.nodup_iff.mpr hnodup
      rw [← List.take_append_drop ((sortByCreatedAsc C).length - k)
        (sortByCreatedAsc C)] at hs
      exact (List.nodup_append.mp hs).2.2

/-- Witness for C1 at a concrete three-run candidate list with k = 2. -/
theorem c1_witness :
    (globalRetention [mkRun 1 100, mkRun 2 50, mkRun 3 200] 2).2.length = 2 ∧
    (globalRetention [mkRun 1 100, mkRun 2 50, mkRun 3 200] 2).1.Disjoint
      (globalRetention [mkRun 1 100, mkRun 2 50, mkRun 3 200] 2).2 := by
  have h := c1_global_strategy [mkRun 1 100, mkRun 2 50, mkRun 3 200] 2
  have h2 := h.2.2.2 (by decide)
  exact ⟨h2.2.2.2.2.2.1 (by decide), h2.2.2.2.2.2.2.2 (by decide)⟩

/-- C10: under the global strategy with 0 < k and |C| ≤ k, nothing is
deleted and every candidate is retained. -/
theorem c10_keep_all_when_quota_covers (C : List RunRecord) (k : Nat)
    (hk : 0 < k) (hlen : C.length ≤ k) :
    (globalRetention C k).1 = [] ∧ (globalRetention C k).2.Perm C := by
  have hperm : (sortByCreatedAsc C).Perm C :=
    List.perm_insertionSort leCreated C
  have hslen : (sortByCreatedAsc C).length = C.length := hperm.length_eq
  rw [globalRetention_pos C k hk]
  dsimp only
  have hz : (sortByCreatedAsc C).length - k = 0 := by omega
  rw [hz]
  exact ⟨List.take_zero _, by simpa using hperm⟩

/-- Witness for C10: two candidates, quota three — nothing deleted. -/
theorem c10_witness :
    (globalRetention [mkRun 1 100, mkRun 2 50] 3).1 = [] ∧
    (globalRetention [mkRun 1 100, mkRun 2 50] 3).2.Perm
      [mkRun 1 100, mkRun 2 50] :=
  c10_keep_all_when_quota_covers [mkRun 1 100, mkRun 2 50] 3
    (by decide) (by decide)

/-- C4: with the age check active (not deferred, positive retain_days) on
a run with a creation time, `shouldDeleteRun` deletes exactly when the
other checks pass and the elapsed age reaches or exceeds the threshold
(`>=`); in particular the exact-boundary age deletes and a strictly
younger run is skipped. -/
theorem c4_age_boundary (run : RunRecord) (o : DeleteOptions) (now t : Int)
    (hskip : o.skipAgeCheck = false) (hd : 0 < o.retainDays)
    (hc : run.created_at = some t) :
    shouldDeleteRun run o now =
      (passesNonAgeChecks run o &&
        decide (o.retainDays * msPerDay ≤ now - t)) ∧
    (now - t = o.retainDays * msPerDay →
      shouldDeleteRun run o now = passesNonAgeChecks run o) ∧
    (now - t < o.retainDays * msPerDay →
      shouldDeleteRun run o now = false) := by
  have hmain : shouldDeleteRun run o now =
      (passesNonAgeChecks run o &&
        decide (o.retainDays * msPerDay ≤ now - t)) := by
    have hdec : decide (0 < o.retainDays) = true := by simpa using hd
    unfold shouldDeleteRun passesNonAgeChecks
    rw [hskip, hc]
    by_cases h1 : run.status ≠ "completed"
    · rw [if_pos h1, if_pos h1, Bool.false_and]
    · rw [if_neg h1, if_neg h1]
      by_cases h2 : (o.checkPullRequestExist &&
          decide (0 < run.pull_requests.length)) = true
      · rw [if_pos h2, if_pos h2, Bool.false_and]
      · rw [if_neg h2, if_neg h2]
        by_cases h3 : (o.checkBranchExistence &&
            decide (run.head_branch.getD "" ≠ "") &&
            o.branchNames.contains (run.head_branch.getD "")) = true
        · rw [if_pos h3, if_pos h3, Bool.false_and]
        · rw [if_neg h3, if_neg h3]
          by_cases h4 : (decide (0 < o.allowedConclusions.length) &&
              !(o.allowedConclusions.contains
                (jsToLower (run.conclusion.getD "")))) = true
          · rw [if_pos h4, if_pos h4, Bool.false_and]
          · rw [if_neg h4, if_neg h4, Bool.true_and]
            have htrue : (!false && decide (0 < o.retainDays)) = true := by
              simp [hdec]
            rw [if_pos htrue]
            dsimp only
            by_cases hlt : now - t < o.retainDays * msPerDay
            · rw [if_pos hlt, decide_eq_false (not_le.mpr hlt)]
            · rw [if_neg hlt, decide_eq_true (not_lt.mp hlt)]
  refine ⟨hmain, ?_, ?_⟩
  · intro heq
    rw [hmain, heq]
    simp
  · intro hlt
    rw [hmain]
    simp [not_le.mpr hlt]

/-- Witness for C4: a run whose age is exactly the 30-day threshold is
deleted. -/
theorem c4_witness :
    shouldDeleteRun (mkRun 1 0) sampleOpts (30 * 86400000) = true := by
  have h := c4_age_boundary (mkRun 1 0) sampleOpts (30 * 86400000) 0
    (by decide) (by decide) (by decide)
  rw [h.2.1 (by decide)]
  decide

/-- C3: under the daily strategy (positive k and retain_days), the delete
set is the expired runs (creation time before the global cutoff, or no
creation time) followed by the per-day overflow: the remaining runs are
bucketed by UTC calendar day, each bucket sorted descending by creation
time, its first k entries retained and the rest deleted.  Hence each
bucket retains at most k runs, a run older than the cutoff is always
deleted, and every retained run is recent enough. -/
theorem c3_daily_strategy (runs : List RunRecord) (k d : Nat) (now : Int)
    (hk : 0 < k) (hd : 0 < d) :
    (filterRunsByDailyRetention runs k d now).1 =
      dailyExpired (now - (d : Int) * msPerDay) runs ++
        ((dailyGroups (now - (d : Int) * msPerDay) runs).map
          (fun g => (sortByCreatedDesc g.2).drop k)).flatten ∧
    (filterRunsByDailyRetention runs k d now).2 =
      ((dailyGroups (now - (d : Int) * msPerDay) runs).map
        (fun g => (sortByCreatedDesc g.2).take k)).flatten ∧
    (∀ r ∈ runs, ∀ t, r.created_at = some t →
      t < now - (d : Int) * msPerDay →
      r ∈ (filterRunsByDailyRetention runs k d now).1) ∧
    (∀ r ∈ runs, r.created_at = none →
      r ∈ (filterRunsByDailyRetention runs k d now).1) ∧
    (∀ g ∈ dailyGroups (now - (d : Int) * msPerDay) runs,
      ((sortByCreatedDesc g.2).take k).length ≤ k ∧
      (sortByCreatedDesc g.2).Perm g.2 ∧
      List.Sorted geCreated (sortByCreatedDesc g.2) ∧
      BucketInv (now - (d : Int) * msPerDay) g) ∧
    (∀ r ∈ (filterRunsByDailyRetention runs k d now).2,
      ∃ t, r.created_at = some t ∧ ¬ t < now - (d : Int) * msPerDay) := by
  have hne : ¬(k = 0 ∨ d = 0) := by omega
  have heq : filterRunsByDailyRetention runs k d now =
      (dailyExpired (now - (d : Int) * msPerDay) runs ++
        ((dailyGroups (now - (d : Int) * msPerDay) runs).map
          (fun g => (sortByCreatedDesc g.2).drop k)).flatten,
       ((dailyGroups (now - (d : Int) * msPerDay) runs).map
          (fun g => (sortByCreatedDesc g.2).take k)).flatten) := by
    unfold filterRunsByDailyRetention
    rw [if_neg hne]
    dsimp only
    simp only [List.map_map, Function.comp_def]
  refine ⟨by rw [heq], by rw [heq], ?_, ?_, ?_, ?_⟩
  · intro r hr t hct hlt
    rw [heq]
    exact List.mem_append_left _
      (mem_dailyExpired _ _ _ hr (Or.inr ⟨t, hct, hlt⟩))
  · intro r hr hnone
    rw [heq]
    exact List.mem_append_left _
      (mem_dailyExpired _ _ _ hr (Or.inl hnone))
  · intro g hg
    refine ⟨?_, List.perm_insertionSort _ _, List.sorted_insertionSort _ _,
      dailyGroups_inv _ _ g hg⟩
    rw [List.length_take]
    exact min_le_left _ _
  · intro r hr
    rw [heq] at hr
    dsimp only at hr
    rcases List.mem_flatten.mp hr with ⟨s, hs, hrs⟩
    rcases List.mem_map.mp hs with ⟨g, hg, rfl⟩
    have hmem : r ∈ sortByCreatedDesc g.2 := List.take_subset _ _ hrs
    have hg2 : r ∈ g.2 := by
      simpa [sortByCreatedDesc] using hmem
    obtain ⟨t, h1, h2, _⟩ := dailyGroups_inv _ _ g hg r hg2
    exact ⟨t, h1, h2⟩

/-- Witness for C3: an expired run lands in the delete set even though
its bucket is otherwise under quota. -/
theorem c3_witness :
    mkRun 5 0 ∈
      (filterRunsByDailyRetention
        [mkRun 5 0, mkRun 6 800000000, mkRun 7 800000001] 1 1 864000000).1 := by
  have h := c3_daily_strategy
    [mkRun 5 0, mkRun 6 800000000, mkRun 7 800000001] 1 1 864000000
    (by decide) (by decide)
  exact h.2.2.1 (mkRun 5 0) (by decide) 0 (by decide) (by decide)

/-- C8 counterexample: under pattern "build", the implemented filter
retains the workflow named "Build" although neither its name nor its
stripped filename contains "build" as a case-sensitive substring (and the
case-sensitive filter of the spec would drop it) — so the name filter
is not case-sensitive. -/
theorem c8_counterexample :
    filterWorkflowsByName [wfBuild] "build" = [wfBuild] ∧
    filterWorkflowsByNameCS [wfBuild] "build" = [] ∧
    jsIncludes wfBuild.name "build" = false ∧
    jsIncludes (stripWorkflowDir wfBuild.path) "build" = false := by decide

/-- C8 (amended): the name filter retains a workflow iff its display name
or its stripped filename contains some configured pattern as a
case-insensitive substring (both sides lowercased), with OR semantics
across patterns and between name and filename; an empty raw pattern or an
empty split pattern set performs no filtering. -/
theorem c8_name_filter_case_insensitive (workflows : List Workflow)
    (raw : String) :
    (raw = "" → filterWorkflowsByName workflows raw = workflows) ∧
    (splitPattern raw = [] →
      filterWorkflowsByName workflows raw = workflows) ∧
    (raw ≠ "" → splitPattern raw ≠ [] →
      ∀ w, w ∈ filterWorkflowsByName workflows raw ↔
        w ∈ workflows ∧ ∃ p ∈ splitPattern raw,
          (jsIncludes (jsToLower w.name) (jsToLower p) ||
           jsIncludes (jsToLower (stripWorkflowDir w.path))
             (jsToLower p)) = true) := by
  refine ⟨?_, ?_, ?_⟩
  · intro h
    unfold filterWorkflowsByName
    rw [if_pos h]
  · intro h
    unfold filterWorkflowsByName
    by_cases hr : raw = ""
    · rw [if_pos hr]
    · rw [if_neg hr]
      dsimp only
      rw [h]
      simp
  · intro hr hp w
    unfold filterWorkflowsByName
    rw [if_neg hr]
    dsimp only
    rw [if_neg (by simpa using hp)]
    simp only [List.mem_filter, List.any_eq_true, List.mem_map]
    constructor
    · rintro ⟨hw, p, ⟨q, hq, rfl⟩, hmatch⟩
      exact ⟨hw, q, hq, hmatch⟩
    · rintro ⟨hw, q, hq, hmatch⟩
      exact ⟨hw, jsToLower q, ⟨q, hq, rfl⟩, hmatch⟩

/-- Witness for the amended C8: "Build" is retained under pattern
"build". -/
theorem c8_witness :
    wfBuild ∈ filterWorkflowsByName [wfBuild] "build" := by
  have h := c8_name_filter_case_insensitive [wfBuild] "build"
  exact (h.2.2 (by decide) (by decide) wfBuild).mpr (by decide)
